import Mathlib

set_option autoImplicit false

/-!
Verification development for the bloomsrv filter server.

The registry layer (handlers `filters_create`, `filters_delete`,
`filters_list`, `filter_insert`, `filter_lookup`, `filter_clear`) is
embedded from `src/src/lib.rs`.  The inner probabilistic set comes from
the external `bloomlib` crate whose source is not part of this
repository; it is modelled from the specification (sections 4.1 and 4.2)
where noted.
-/

/-- Modelled from the spec: the byte representation of an item.  The code
stores items as text (`BloomFilter<String>`); we take the sequence of
character code points. -/
def strBytes (s : String) : List Nat :=
  s.data.map Char.toNat

/-- Modelled from the spec: a fixed, deterministic, seeded 64-bit hash of an
item (section 4.2 allows any well-distributed non-cryptographic hash with
distinct seeds; the exact algorithm of `bloomlib` is not visible, see the
open question in section 9).  A polynomial rolling hash modulo 2^64. -/
def hashSeed (seed : Nat) (s : String) : Nat :=
  (strBytes s).foldl (fun a c => (a * 1099511628211 + c) % 2 ^ 64) seed

/-- Modelled from the spec: the first base hash value of an item. -/
def hashOne (s : String) : Nat :=
  hashSeed 14695981039346656037 s

/-- Modelled from the spec: the second base hash value of an item, with a
distinct seed. -/
def hashTwo (s : String) : Nat :=
  hashSeed 7319936632422683443 s

/-- Modelled from the spec: the probabilistic set of `bloomlib`.  A BitField
of `m` bits (here `bits`, with `m = bits.length`) plus the hash-function
count `k` (sections 2 and 4.2). -/
structure BloomFilter where
  bits : List Bool
  k : Nat
deriving DecidableEq

/-- Modelled from the spec: the `k` bit indices probed for an item,
`idx_i = (h1 + i * h2) mod m` for `i` in `0..k` (section 4.2). -/
def BloomFilter.indices (f : BloomFilter) (item : String) : List Nat :=
  (List.range f.k).map (fun i => (hashOne item + i * hashTwo item) % f.bits.length)

/-- The loop of `insert`: set every listed bit of the BitField. -/
def setBits (bits : List Bool) (idxs : List Nat) : List Bool :=
  idxs.foldl (fun b i => b.set i true) bits

/-- Modelled from the spec: `insert(item)` sets each of the `k` derived bits
(section 4.2). -/
def BloomFilter.insert (f : BloomFilter) (item : String) : BloomFilter :=
  { f with bits := setBits f.bits (f.indices item) }

/-- Modelled from the spec: `contains(item)` is true only if all `k` derived
bits are set (section 4.2). -/
def BloomFilter.contains (f : BloomFilter) (item : String) : Bool :=
  (f.indices item).all (fun i => f.bits.getD i false)

/-- Modelled from the spec: `clear()` resets the BitField to all-zero in
place; `m` and `k` are unchanged (section 4.2). -/
def BloomFilter.clear (f : BloomFilter) : BloomFilter :=
  { f with bits := List.replicate f.bits.length false }

/-- Modelled from the spec: construction by target false-positive rate
(section 4.2).  The spec gives the sizing as real-valued logarithm formulas
and marks the exact realization of the external dependency as not visible
(section 9); we use an executable deterministic approximation
(`k` close to `log2 (1/p)`, `m` close to `k * n / ln 2`) that satisfies the
constraints the spec does fix: the computed sizes are deterministic,
`m` is at least 1 and `k` is clamped to a minimum of 1.  No claim verified
here depends on the exact values of `m` and `k`. -/
def BloomFilter.byRate (n : Nat) (p : ℚ) : BloomFilter :=
  let k := (Nat.log2 (p.den / (p.num.toNat.max 1))).max 1
  let m := ((k * n * 3) / 2).max 1
  { bits := List.replicate m false, k := k }

/-- Modelled from the spec: construction by explicit hash count
(section 4.2), `m = ceil(k * n / ln 2)` approximated executably, with
`m` at least 1; the spec requires `k` to be at least 1 as a precondition,
which we realize by clamping. -/
def BloomFilter.byCount (n : Nat) (kc : Nat) : BloomFilter :=
  let k := kc.max 1
  let m := ((k * n * 3) / 2).max 1
  { bits := List.replicate m false, k := k }

/-- Defines how the Bloom Filter was calculated during creation
(`CreationMode` in `src/src/lib.rs`).  The false-positive rate, an `f64` in
the code, is embedded as a rational. -/
inductive CreationMode where
  | FalsePositiveRate (p : ℚ)
  | HashCount (k : Nat)
deriving DecidableEq

/-- Container holding the filter and its configuration (`FilterContainer`
in `src/src/lib.rs`). -/
structure FilterContainer where
  id : String
  name : String
  filter : BloomFilter
  capacity : Nat
  creation_mode : CreationMode
deriving DecidableEq

/-- Request body of the create endpoint (`CreateRequest` in
`src/src/lib.rs`). -/
structure CreateRequest where
  name : String
  item_count : Nat
  hash_count : Option Nat
  false_positive_rate : Option ℚ
deriving DecidableEq

/-- Success body of the create endpoint (`FilterResponse` in
`src/src/lib.rs`). -/
structure FilterResponse where
  id : String
  name : String
  message : String
deriving DecidableEq

/-- One element of the list endpoint response (`ListItem` in
`src/src/lib.rs`). -/
structure ListItem where
  id : String
  name : String
  item_count : Nat
  config : String
deriving DecidableEq

/-- The shared state: the `HashMap<String, FilterContainer>` behind the
`RwLock`, embedded as an association list that never holds two entries with
the same key (established below for every reachable state). -/
abbrev Registry := List (String × FilterContainer)

/-- Lookup of the container stored under a name (`HashMap::get`). -/
def getVal : Registry → String → Option FilterContainer
  | [], _ => none
  | e :: rest, key => if e.1 = key then some e.2 else getVal rest key

/-- Key-membership test (`HashMap::contains_key`). -/
def containsKey (db : Registry) (key : String) : Bool :=
  (getVal db key).isSome

/-- Removal of the entry stored under a name (`HashMap::remove`). -/
def removeKey : Registry → String → Registry
  | [], _ => []
  | e :: rest, key => if e.1 = key then rest else e :: removeKey rest key

/-- In-place update of the container stored under a name
(`HashMap::get_mut` followed by mutation of the container). -/
def updateVal : Registry → String → (FilterContainer → FilterContainer) → Registry
  | [], _, _ => []
  | e :: rest, key, f => if e.1 = key then (e.1, f e.2) :: rest else e :: updateVal rest key f

/-- The quote character used by the response messages of the handlers. -/
def qc : String :=
  String.singleton (Char.ofNat 39)

/-- Outcome of the create handler: HTTP 409 with an error body, HTTP 400
with an error body, or HTTP 201 with a `FilterResponse` body. -/
inductive CreateResult where
  | conflict (error : String)
  | badRequest (error : String)
  | created (resp : FilterResponse)
deriving DecidableEq

/-- Outcome of the delete, insert and clear handlers: HTTP 200 with a
message, or HTTP 404 with an error. -/
inductive OpResult where
  | ok (message : String)
  | notFound (error : String)
deriving DecidableEq

/-- Outcome of the lookup handler: HTTP 200 with the boolean and a message,
or HTTP 404 with an error. -/
inductive LookupResult where
  | found (contains : Bool) (message : String)
  | notFound (error : String)
deriving DecidableEq

/-- The human-readable creation-mode description built by `filters_list`. -/
def configDescription (mode : CreationMode) : String :=
  match mode with
  | .FalsePositiveRate r => "False positive rate: " ++ toString r
  | .HashCount h => "Hash count: " ++ toString h

/-- Embedded from `filters_create` in `src/src/lib.rs` (lines 120-175).
The freshly generated UUID is passed in as the argument `id`; the handler
itself treats it as an opaque string. -/
def filters_create (db : Registry) (payload : CreateRequest) (id : String) :
    CreateResult × Registry :=
  let filter_name := payload.name
  if containsKey db filter_name then
    (.conflict ("Cannot create filter " ++ qc ++ filter_name ++ qc ++
      ", name is already in use"), db)
  else
    match payload.false_positive_rate with
    | some false_positive_rate =>
        let filter := BloomFilter.byRate payload.item_count false_positive_rate
        let container : FilterContainer :=
          { id := id, name := filter_name, filter := filter,
            capacity := payload.item_count,
            creation_mode := .FalsePositiveRate false_positive_rate }
        let resp : FilterResponse :=
          { id := id, name := payload.name,
            message := "Filter " ++ qc ++ payload.name ++ qc ++ " created" }
        (.created resp, db ++ [(filter_name, container)])
    | none =>
        match payload.hash_count with
        | some hash_count =>
            let filter := BloomFilter.byCount payload.item_count hash_count
            let container : FilterContainer :=
              { id := id, name := filter_name, filter := filter,
                capacity := payload.item_count,
                creation_mode := .HashCount hash_count }
            let resp : FilterResponse :=
              { id := id, name := payload.name,
                message := "Filter " ++ qc ++ payload.name ++ qc ++ " created" }
            (.created resp, db ++ [(filter_name, container)])
        | none =>
            (.badRequest "Must provide either false_positive_rate or hash_count", db)

/-- The identifier scan of `filters_delete`: the key of the first record
whose `id` field equals the token. -/
def findKeyById : Registry → String → Option String
  | [], _ => none
  | e :: rest, tok => if e.2.id = tok then some e.1 else findKeyById rest tok

/-- Embedded from `filters_delete` in `src/src/lib.rs` (lines 177-206):
first an exact removal by name, then a linear scan for a matching
identifier, otherwise not found. -/
def filters_delete (db : Registry) (id_or_name : String) : OpResult × Registry :=
  if containsKey db id_or_name then
    (.ok ("Filter " ++ qc ++ id_or_name ++ qc ++ " has been deleted"),
     removeKey db id_or_name)
  else
    match findKeyById db id_or_name with
    | some name =>
        (.ok ("Filter " ++ qc ++ name ++ qc ++ " has been deleted"),
         removeKey db name)
    | none =>
        (.notFound ("Filter " ++ qc ++ id_or_name ++ qc ++ " not found"), db)

/-- Embedded from `filters_list` in `src/src/lib.rs` (lines 208-226).  The
handler takes the read lock only; the state component of the result records
that the registry is returned untouched. -/
def filters_list (db : Registry) : List ListItem × Registry :=
  (db.map (fun e =>
    { id := e.2.id, name := e.2.name, item_count := e.2.capacity,
      config := configDescription e.2.creation_mode }), db)

/-- Embedded from `filter_insert` in `src/src/lib.rs` (lines 228-248). -/
def filter_insert (db : Registry) (name item : String) : OpResult × Registry :=
  match getVal db name with
  | some _ =>
      (.ok ("Item " ++ qc ++ item ++ qc ++ " inserted into filter " ++
        qc ++ name ++ qc),
       updateVal db name (fun c => { c with filter := c.filter.insert item }))
  | none => (.notFound ("Filter " ++ qc ++ name ++ qc ++ " not found"), db)

/-- Embedded from `filter_lookup` in `src/src/lib.rs` (lines 250-275). -/
def filter_lookup (db : Registry) (name item : String) : LookupResult × Registry :=
  match getVal db name with
  | some container =>
      let contains := container.filter.contains item
      (.found contains
        (if contains then
          "Item " ++ qc ++ item ++ qc ++ " may have been seen by filter " ++
            qc ++ name ++ qc
         else
          "Item " ++ qc ++ item ++ qc ++ " cannot have been seen by filter " ++
            qc ++ name ++ qc), db)
  | none => (.notFound ("Filter " ++ qc ++ name ++ qc ++ " not found"), db)

/-- Embedded from `filter_clear` in `src/src/lib.rs` (lines 277-294). -/
def filter_clear (db : Registry) (name : String) : OpResult × Registry :=
  match getVal db name with
  | some _ =>
      (.ok ("Filter " ++ qc ++ name ++ qc ++ " has been cleared"),
       updateVal db name (fun c => { c with filter := c.filter.clear }))
  | none => (.notFound ("Filter " ++ qc ++ name ++ qc ++ " not found"), db)

/-- One state-changing registry operation (lookup and list never change the
state). -/
inductive Op where
  | createOp (payload : CreateRequest) (id : String)
  | deleteOp (tok : String)
  | insertOp (name item : String)
  | clearOp (name : String)

/-- The state reached after one operation, its response discarded. -/
def stepOp (db : Registry) : Op → Registry
  | .createOp payload id => (filters_create db payload id).2
  | .deleteOp tok => (filters_delete db tok).2
  | .insertOp name item => (filter_insert db name item).2
  | .clearOp name => (filter_clear db name).2

/-- The states the registry can be in: the empty map at startup, closed
under the four state-changing operations. -/
inductive Reachable : Registry → Prop where
  | init : Reachable []
  | next (db : Registry) (op : Op) : Reachable db → Reachable (stepOp db op)

/-! ### BitField lemmas -/

theorem length_setBits : ∀ (idxs : List Nat) (bits : List Bool),
    (setBits bits idxs).length = bits.length
  | [], _ => rfl
  | i :: rest, bits => by
      show (setBits (bits.set i true) rest).length = bits.length
      rw [length_setBits rest, List.length_set]

theorem getD_set_true (bits : List Bool) (i j : Nat) (h : bits.getD j false = true) :
    (bits.set i true).getD j false = true := by
  rw [List.getD_eq_getElem?_getD] at h ⊢
  rw [List.getElem?_set]
  by_cases hij : i = j
  · subst hij
    by_cases hlt : i < bits.length
    · simp [hlt]
    · rw [List.getElem?_eq_none (Nat.le_of_not_lt hlt)] at h
      simp at h
  · simp [hij]
    exact h

theorem getD_setBits_mono : ∀ (idxs : List Nat) (bits : List Bool) (j : Nat),
    bits.getD j false = true → (setBits bits idxs).getD j false = true
  | [], _, _, h => h
  | i :: rest, bits, j, h => by
      show (setBits (bits.set i true) rest).getD j false = true
      exact getD_setBits_mono rest _ j (getD_set_true bits i j h)

theorem getD_set_self_true (bits : List Bool) (i : Nat) (h : i < bits.length) :
    (bits.set i true).getD i false = true := by
  rw [List.getD_eq_getElem?_getD, List.getElem?_set_self h]
  rfl

theorem getD_setBits_mem : ∀ (idxs : List Nat) (bits : List Bool) (j : Nat),
    j ∈ idxs → j < bits.length → (setBits bits idxs).getD j false = true
  | i :: rest, bits, j, hmem, hlt => by
      show (setBits (bits.set i true) rest).getD j false = true
      rcases List.mem_cons.mp hmem with rfl | hmem
      · exact getD_setBits_mono rest _ j (getD_set_self_true bits j hlt)
      · exact getD_setBits_mem rest _ j hmem (by rw [List.length_set]; exact hlt)

theorem getD_replicate_false (n j : Nat) : (List.replicate n false).getD j false = false := by
  rw [List.getD_eq_getElem?_getD, List.getElem?_replicate]
  by_cases h : j < n <;> simp [h]

/-! ### BloomFilter lemmas -/

theorem BloomFilter.length_insert (f : BloomFilter) (x : String) :
    (f.insert x).bits.length = f.bits.length :=
  length_setBits _ _

theorem BloomFilter.k_insert (f : BloomFilter) (x : String) :
    (f.insert x).k = f.k :=
  rfl

theorem BloomFilter.indices_insert (f : BloomFilter) (x y : String) :
    (f.insert y).indices x = f.indices x := by
  unfold BloomFilter.indices
  rw [BloomFilter.k_insert, BloomFilter.length_insert]

/-- An item just inserted in a filter with a non-empty BitField is reported
as contained. -/
theorem BloomFilter.contains_insert_self (f : BloomFilter) (x : String)
    (h : 1 ≤ f.bits.length) : (f.insert x).contains x = true := by
  unfold BloomFilter.contains
  rw [BloomFilter.indices_insert]
  apply List.all_eq_true.mpr
  intro j hj
  have hjlt : j < f.bits.length := by
    rcases List.mem_map.mp hj with ⟨i, _, rfl⟩
    exact Nat.mod_lt _ (Nat.lt_of_lt_of_le Nat.zero_lt_one h)
  exact getD_setBits_mem _ _ _ hj hjlt

/-- Inserting further items never unsets a positive membership answer. -/
theorem BloomFilter.contains_mono (f : BloomFilter) (x y : String)
    (h : f.contains x = true) : (f.insert y).contains x = true := by
  unfold BloomFilter.contains at h ⊢
  rw [BloomFilter.indices_insert]
  apply List.all_eq_true.mpr
  intro j hj
  exact getD_setBits_mono _ _ _ (List.all_eq_true.mp h j hj)

/-- A filter whose BitField is all-zero contains nothing, as long as at
least one bit is probed per item. -/
theorem contains_replicate_false (m k : Nat) (x : String) (hk : 1 ≤ k) :
    BloomFilter.contains { bits := List.replicate m false, k := k } x = false := by
  unfold BloomFilter.contains
  apply Bool.eq_false_iff.mpr
  intro hall
  have hmem : (hashOne x + 0 * hashTwo x) %
      (List.replicate m false : List Bool).length ∈
      BloomFilter.indices { bits := List.replicate m false, k := k } x := by
    unfold BloomFilter.indices
    exact List.mem_map.mpr ⟨0, List.mem_range.mpr (Nat.lt_of_lt_of_le Nat.zero_lt_one hk), rfl⟩
  have := List.all_eq_true.mp hall _ hmem
  rw [getD_replicate_false] at this
  exact Bool.false_ne_true this

theorem BloomFilter.contains_clear (f : BloomFilter) (x : String) (hk : 1 ≤ f.k) :
    f.clear.contains x = false :=
  contains_replicate_false _ _ _ hk

theorem BloomFilter.length_clear (f : BloomFilter) :
    f.clear.bits.length = f.bits.length := by
  unfold BloomFilter.clear
  exact List.length_replicate _ _

theorem BloomFilter.k_clear (f : BloomFilter) : f.clear.k = f.k :=
  rfl

/-- Well-formedness of a filter: at least one probe and at least one bit. -/
abbrev wfFilter (f : BloomFilter) : Prop :=
  1 ≤ f.k ∧ 1 ≤ f.bits.length

theorem wfFilter_byRate (n : Nat) (p : ℚ) : wfFilter (BloomFilter.byRate n p) :=
  ⟨Nat.le_max_right _ 1, by
    show 1 ≤ (List.replicate _ false).length
    rw [List.length_replicate]
    exact Nat.le_max_right _ 1⟩

theorem wfFilter_byCount (n kc : Nat) : wfFilter (BloomFilter.byCount n kc) :=
  ⟨Nat.le_max_right _ 1, by
    show 1 ≤ (List.replicate _ false).length
    rw [List.length_replicate]
    exact Nat.le_max_right _ 1⟩

theorem wfFilter_insert (f : BloomFilter) (x : String) (h : wfFilter f) :
    wfFilter (f.insert x) :=
  ⟨h.1, by rw [BloomFilter.length_insert]; exact h.2⟩

theorem wfFilter_clear (f : BloomFilter) (h : wfFilter f) : wfFilter f.clear :=
  ⟨h.1, by rw [BloomFilter.length_clear]; exact h.2⟩

theorem contains_byRate_false (n : Nat) (p : ℚ) (x : String) :
    (BloomFilter.byRate n p).contains x = false :=
  contains_replicate_false _ _ x (Nat.le_max_right _ 1)

theorem contains_byCount_false (n kc : Nat) (x : String) :
    (BloomFilter.byCount n kc).contains x = false :=
  contains_replicate_false _ _ x (Nat.le_max_right _ 1)

/-! ### Registry map lemmas -/

/-- The display names currently registered, in storage order. -/
def keys (db : Registry) : List String :=
  db.map Prod.fst

theorem keys_append (db l : Registry) : keys (db ++ l) = keys db ++ keys l :=
  List.map_append _ _ _

theorem getVal_updateVal_self : ∀ (db : Registry) (key : String)
    (f : FilterContainer → FilterContainer),
    getVal (updateVal db key f) key = (getVal db key).map f
  | [], _, _ => rfl
  | e :: rest, key, f => by
      by_cases h : e.1 = key
      · simp [updateVal, getVal, h]
      · simp [updateVal, getVal, h, getVal_updateVal_self rest key f]

theorem getVal_updateVal_ne : ∀ (db : Registry) (key other : String)
    (f : FilterContainer → FilterContainer), other ≠ key →
    getVal (updateVal db key f) other = getVal db other
  | [], _, _, _, _ => rfl
  | e :: rest, key, other, f, hne => by
      by_cases h : e.1 = key
      · have hko : ¬ key = other := fun hh => hne hh.symm
        simp [updateVal, getVal, h, hko]
      · by_cases h2 : e.1 = other
        · simp [updateVal, getVal, h, h2, hne]
        · simp [updateVal, getVal, h, h2, getVal_updateVal_ne rest key other f hne]

theorem keys_updateVal : ∀ (db : Registry) (key : String)
    (f : FilterContainer → FilterContainer), keys (updateVal db key f) = keys db
  | [], _, _ => rfl
  | e :: rest, key, f => by
      by_cases h : e.1 = key
      · simp [updateVal, keys, h]
      · simp only [updateVal, if_neg h, keys, List.map_cons]
        rw [show (updateVal rest key f).map Prod.fst = keys (updateVal rest key f) from rfl,
          keys_updateVal rest key f]
        rfl

theorem mem_updateVal : ∀ (db : Registry) (key : String)
    (f : FilterContainer → FilterContainer) (e : String × FilterContainer),
    e ∈ updateVal db key f → e ∈ db ∨ ∃ c, (e.1, c) ∈ db ∧ e.2 = f c
  | [], _, _, _, h => absurd h (List.not_mem_nil _)
  | e0 :: rest, key, f, e, h => by
      by_cases hk : e0.1 = key
      · simp only [updateVal, if_pos hk] at h
        rcases List.mem_cons.mp h with rfl | hmem
        · exact Or.inr ⟨e0.2, List.mem_cons_self _ _, rfl⟩
        · exact Or.inl (List.mem_cons_of_mem _ hmem)
      · simp only [updateVal, if_neg hk] at h
        rcases List.mem_cons.mp h with rfl | hmem
        · exact Or.inl (List.mem_cons_self _ _)
        · rcases mem_updateVal rest key f e hmem with h1 | ⟨c, hc, he⟩
          · exact Or.inl (List.mem_cons_of_mem _ h1)
          · exact Or.inr ⟨c, List.mem_cons_of_mem _ hc, he⟩

theorem removeKey_sublist : ∀ (db : Registry) (key : String),
    List.Sublist (removeKey db key) db
  | [], _ => List.Sublist.refl _
  | e :: rest, key => by
      by_cases h : e.1 = key
      · simp only [removeKey, if_pos h]
        exact List.sublist_cons_self e rest
      · simp only [removeKey, if_neg h]
        exact List.Sublist.cons₂ e (removeKey_sublist rest key)

theorem mem_keys_of_getVal_some : ∀ (db : Registry) (key : String)
    (c : FilterContainer), getVal db key = some c → key ∈ keys db
  | [], _, _, h => by simp [getVal] at h
  | e :: rest, key, c, h => by
      by_cases hk : e.1 = key
      · simp [keys, hk.symm]
      · simp only [getVal, if_neg hk] at h
        exact List.mem_cons_of_mem _ (mem_keys_of_getVal_some rest key c h)

theorem getVal_mem : ∀ (db : Registry) (key : String) (c : FilterContainer),
    getVal db key = some c → (key, c) ∈ db
  | [], _, _, h => by simp [getVal] at h
  | e :: rest, key, c, h => by
      by_cases hk : e.1 = key
      · simp only [getVal, if_pos hk] at h
        subst hk
        cases h
        exact List.mem_cons_self _ _
      · simp only [getVal, if_neg hk] at h
        exact List.mem_cons_of_mem _ (getVal_mem rest key c h)

theorem getVal_eq_none_of_not_mem : ∀ (db : Registry) (key : String),
    key ∉ keys db → getVal db key = none
  | [], _, _ => rfl
  | e :: rest, key, h => by
      have h1 : ¬ e.1 = key := fun hk => h (by simp [keys, hk.symm])
      have h2 : key ∉ keys rest := fun hk => h (List.mem_cons_of_mem _ hk)
      simp only [getVal, if_neg h1]
      exact getVal_eq_none_of_not_mem rest key h2

theorem getVal_isSome_of_mem_keys : ∀ (db : Registry) (key : String),
    key ∈ keys db → (getVal db key).isSome = true
  | [], _, h => absurd h (List.not_mem_nil _)
  | e :: rest, key, h => by
      by_cases hk : e.1 = key
      · simp [getVal, hk]
      · have hrest : key ∈ keys rest := by
          simp only [keys, List.map_cons, List.mem_cons] at h
          rcases h with h1 | h1
          · exact absurd h1.symm hk
          · exact h1
        simp only [getVal, if_neg hk]
        exact getVal_isSome_of_mem_keys rest key hrest

theorem not_mem_keys_of_getVal_none (db : Registry) (key : String)
    (h : getVal db key = none) : key ∉ keys db := by
  intro hmem
  have := getVal_isSome_of_mem_keys db key hmem
  rw [h] at this
  simp at this

theorem getVal_append_none : ∀ (db l : Registry) (key : String),
    getVal db key = none → getVal (db ++ l) key = getVal l key
  | [], _, _, _ => rfl
  | e :: rest, l, key, h => by
      by_cases hk : e.1 = key
      · simp [getVal, hk] at h
      · simp only [getVal, if_neg hk] at h
        simp only [List.cons_append, getVal, if_neg hk]
        exact getVal_append_none rest l key h

/-! ### Well-formedness of reachable registries -/

/-- Registry well-formedness: no duplicate names, and every stored filter
probes at least one bit of a non-empty BitField. -/
abbrev wfDb (db : Registry) : Prop :=
  (keys db).Nodup ∧ ∀ e ∈ db, wfFilter e.2.filter

theorem wfDb_nil : wfDb [] :=
  ⟨List.nodup_nil, fun e he => absurd he (List.not_mem_nil e)⟩

theorem wfDb_append_one (db : Registry) (name : String) (c : FilterContainer)
    (hdb : wfDb db) (hfree : getVal db name = none) (hc : wfFilter c.filter) :
    wfDb (db ++ [(name, c)]) := by
  constructor
  · rw [keys_append]
    refine List.nodup_append.mpr ⟨hdb.1, List.nodup_singleton _, ?_⟩
    intro a ha hb
    have : a = name := by simpa [keys] using hb
    subst this
    exact not_mem_keys_of_getVal_none db a hfree ha
  · intro e he
    rcases List.mem_append.mp he with h1 | h1
    · exact hdb.2 e h1
    · have : e = (name, c) := by simpa using h1
      subst this
      exact hc

theorem getVal_none_of_containsKey_false (db : Registry) (key : String)
    (h : ¬ containsKey db key = true) : getVal db key = none := by
  unfold containsKey at h
  cases hg : getVal db key with
  | none => rfl
  | some c => rw [hg] at h; simp at h

theorem wfDb_create (db : Registry) (payload : CreateRequest) (id : String)
    (h : wfDb db) : wfDb (filters_create db payload id).2 := by
  by_cases hc : containsKey db payload.name = true
  · simp only [filters_create, hc, if_true]
    exact h
  · have hfree := getVal_none_of_containsKey_false db payload.name hc
    cases hf : payload.false_positive_rate with
    | some p =>
        simp only [filters_create, hc, if_false, hf]
        exact wfDb_append_one db payload.name _ h hfree (wfFilter_byRate _ _)
    | none =>
        cases hk : payload.hash_count with
        | some kc =>
            simp only [filters_create, hc, if_false, hf, hk]
            exact wfDb_append_one db payload.name _ h hfree (wfFilter_byCount _ _)
        | none =>
            simp only [filters_create, hc, if_false, hf, hk]
            exact h

theorem wfDb_removeKey (db : Registry) (key : String) (h : wfDb db) :
    wfDb (removeKey db key) := by
  constructor
  · exact List.Nodup.sublist (List.Sublist.map Prod.fst (removeKey_sublist db key)) h.1
  · intro e he
    exact h.2 e ((removeKey_sublist db key).subset he)

theorem wfDb_delete (db : Registry) (tok : String) (h : wfDb db) :
    wfDb (filters_delete db tok).2 := by
  by_cases hc : containsKey db tok = true
  · simp only [filters_delete, hc, if_true]
    exact wfDb_removeKey db tok h
  · cases hk : findKeyById db tok with
    | some name =>
        simp only [filters_delete, hc, if_false, hk]
        exact wfDb_removeKey db name h
    | none =>
        simp only [filters_delete, hc, if_false, hk]
        exact h

theorem wfDb_updateVal (db : Registry) (key : String)
    (f : FilterContainer → FilterContainer) (h : wfDb db)
    (hf : ∀ c, wfFilter c.filter → wfFilter (f c).filter) :
    wfDb (updateVal db key f) := by
  constructor
  · rw [keys_updateVal]
    exact h.1
  · intro e he
    rcases mem_updateVal db key f e he with h1 | ⟨c, hc, he2⟩
    · exact h.2 e h1
    · rw [he2]
      exact hf c (h.2 (e.1, c) hc)

theorem wfDb_filter_insert (db : Registry) (name item : String) (h : wfDb db) :
    wfDb (filter_insert db name item).2 := by
  cases hg : getVal db name with
  | some c =>
      simp only [filter_insert, hg]
      exact wfDb_updateVal db name _ h (fun c hc => wfFilter_insert _ _ hc)
  | none =>
      simp only [filter_insert, hg]
      exact h

theorem wfDb_filter_clear (db : Registry) (name : String) (h : wfDb db) :
    wfDb (filter_clear db name).2 := by
  cases hg : getVal db name with
  | some c =>
      simp only [filter_clear, hg]
      exact wfDb_updateVal db name _ h (fun c hc => wfFilter_clear _ hc)
  | none =>
      simp only [filter_clear, hg]
      exact h

theorem wfDb_step (db : Registry) (op : Op) (h : wfDb db) : wfDb (stepOp db op) := by
  cases op with
  | createOp payload id => exact wfDb_create db payload id h
  | deleteOp tok => exact wfDb_delete db tok h
  | insertOp name item => exact wfDb_filter_insert db name item h
  | clearOp name => exact wfDb_filter_clear db name h

theorem wfDb_reachable (db : Registry) (h : Reachable db) : wfDb db := by
  induction h with
  | init => exact wfDb_nil
  | next db op _ ih => exact wfDb_step db op ih

/-! ### Result discriminators -/

/-- True exactly on the HTTP 201 outcome of the create handler. -/
def CreateResult.isCreated : CreateResult → Bool
  | .created _ => true
  | _ => false

/-- True exactly on the HTTP 409 outcome of the create handler. -/
def CreateResult.isConflict : CreateResult → Bool
  | .conflict _ => true
  | _ => false

/-- True exactly on the HTTP 400 outcome of the create handler. -/
def CreateResult.isBadRequest : CreateResult → Bool
  | .badRequest _ => true
  | _ => false

/-- True exactly on the HTTP 200 outcome of delete, insert or clear. -/
def OpResult.isOk : OpResult → Bool
  | .ok _ => true
  | _ => false

/-! ### Claim C1: no false negatives -/

/-- Execution of a sequence of state-changing operations. -/
def runOps (db : Registry) (ops : List Op) : Registry :=
  ops.foldl stepOp db

/-- The intervening operations claim C1 quantifies over: item insertions
into any filter, and clears of filters other than the observed one. -/
def keepsItem (name : String) : Op → Bool
  | .insertOp _ _ => true
  | .clearOp n => n != name
  | _ => false

/-- The named record exists and reports the item as contained. -/
def containsAt (db : Registry) (name x : String) : Prop :=
  ∃ c, getVal db name = some c ∧ c.filter.contains x = true

theorem containsAt_step (db : Registry) (name x : String) (op : Op)
    (hop : keepsItem name op = true) (h : containsAt db name x) :
    containsAt (stepOp db op) name x := by
  rcases h with ⟨c, hc, hcon⟩
  cases op with
  | createOp payload id => simp [keepsItem] at hop
  | deleteOp tok => simp [keepsItem] at hop
  | insertOp n y =>
      by_cases hn : n = name
      · subst hn
        simp only [stepOp, filter_insert, hc]
        refine ⟨{ c with filter := c.filter.insert y }, ?_, ?_⟩
        · rw [getVal_updateVal_self, hc]
          rfl
        · exact BloomFilter.contains_mono c.filter x y hcon
      · simp only [stepOp, filter_insert]
        cases hg : getVal db n with
        | some c2 =>
            refine ⟨c, ?_, hcon⟩
            rw [getVal_updateVal_ne db n name _ (fun hh => hn hh.symm)]
            exact hc
        | none => exact ⟨c, hc, hcon⟩
  | clearOp n =>
      have hn : n ≠ name := by simpa [keepsItem, bne_iff_ne] using hop
      simp only [stepOp, filter_clear]
      cases hg : getVal db n with
      | some c2 =>
          refine ⟨c, ?_, hcon⟩
          rw [getVal_updateVal_ne db n name _ (fun hh => hn hh.symm)]
          exact hc
      | none => exact ⟨c, hc, hcon⟩

theorem containsAt_runOps : ∀ (ops : List Op) (db : Registry) (name x : String),
    (∀ op ∈ ops, keepsItem name op = true) → containsAt db name x →
    containsAt (runOps db ops) name x
  | [], _, _, _, _, h => h
  | op :: rest, db, name, x, hops, h => by
      show containsAt (runOps (stepOp db op) rest) name x
      exact containsAt_runOps rest _ name x
        (fun o ho => hops o (List.mem_cons_of_mem _ ho))
        (containsAt_step db name x op (hops op (List.mem_cons_self _ _)) h)

theorem containsAt_after_insert (db : Registry) (name x : String)
    (c : FilterContainer) (hc : getVal db name = some c)
    (hwf : wfFilter c.filter) :
    containsAt (filter_insert db name x).2 name x := by
  simp only [filter_insert, hc]
  refine ⟨{ c with filter := c.filter.insert x }, ?_, ?_⟩
  · rw [getVal_updateVal_self, hc]
    rfl
  · exact BloomFilter.contains_insert_self c.filter x hwf.2

/-- C1: once `insert_item(name, x)` has succeeded, every subsequent
`contains_item(name, x)` reports `contains = true` through any sequence of
further item insertions (into this or other filters) and clears of other
filters, i.e. until the next `clear_filter(name)`: no false negatives. -/
theorem insert_no_false_negatives (db : Registry) (name x : String)
    (hwf : wfDb db) (hok : (filter_insert db name x).1.isOk = true)
    (ops : List Op) (hops : ∀ op ∈ ops, keepsItem name op = true) :
    ∃ msg, (filter_lookup (runOps (filter_insert db name x).2 ops) name x).1 =
      LookupResult.found true msg := by
  cases hg : getVal db name with
  | none =>
      simp only [filter_insert, hg, OpResult.isOk] at hok
      exact (Bool.false_ne_true hok).elim
  | some c =>
      have h1 := containsAt_after_insert db name x c hg
        (hwf.2 (name, c) (getVal_mem db name c hg))
      have h2 := containsAt_runOps ops _ name x hops h1
      rcases h2 with ⟨c2, hc2, hcon2⟩
      refine ⟨"Item " ++ qc ++ x ++ qc ++ " may have been seen by filter " ++
        qc ++ name ++ qc, ?_⟩
      simp [filter_lookup, hc2, hcon2]

/-- A concrete FilterContainer used to instantiate general theorems: one
probe over a single bit, created with explicit hash count 1. -/
def sampleCont : FilterContainer :=
  { id := "id-1", name := "acc",
    filter := { bits := [false], k := 1 }, capacity := 1,
    creation_mode := CreationMode.HashCount 1 }

/-- A concrete well-formed one-filter registry. -/
def sampleDb : Registry :=
  [("acc", sampleCont)]

/-- Witness for C1: a concrete one-filter registry, a successful insert,
an unrelated insert and a clear of another name in between, and the lookup
still answers true. -/
theorem insert_no_false_negatives_witness :
    wfDb sampleDb ∧
    (filter_insert sampleDb "acc" "user_123").1.isOk = true ∧
    (∀ op ∈ [Op.insertOp "acc" "other_item", Op.clearOp "decoy"],
      keepsItem "acc" op = true) ∧
    (∃ msg, (filter_lookup (runOps (filter_insert sampleDb "acc" "user_123").2
        [Op.insertOp "acc" "other_item", Op.clearOp "decoy"]) "acc" "user_123").1 =
      LookupResult.found true msg) :=
  ⟨by decide, by decide, by decide,
    insert_no_false_negatives sampleDb "acc" "user_123" (by decide) (by decide)
      [Op.insertOp "acc" "other_item", Op.clearOp "decoy"] (by decide)⟩

/-! ### Claim C2: clear fully resets membership -/

theorem lookup_false_of_contains_false (db : Registry) (name x : String)
    (c : FilterContainer) (hc : getVal db name = some c)
    (hcon : c.filter.contains x = false) :
    ∃ msg, (filter_lookup db name x).1 = LookupResult.found false msg := by
  refine ⟨"Item " ++ qc ++ x ++ qc ++ " cannot have been seen by filter " ++
    qc ++ name ++ qc, ?_⟩
  simp [filter_lookup, hc, hcon]

/-- C2: immediately after a successful `clear_filter(name)` the lookup
reports `contains = false` for every item, and likewise on a freshly
created filter before any insert. -/
theorem clear_resets_membership :
    (∀ (db : Registry) (name : String), wfDb db →
      (filter_clear db name).1.isOk = true →
      ∀ x, ∃ msg, (filter_lookup (filter_clear db name).2 name x).1 =
        LookupResult.found false msg) ∧
    (∀ (db : Registry) (payload : CreateRequest) (id : String),
      (filters_create db payload id).1.isCreated = true →
      ∀ x, ∃ msg, (filter_lookup (filters_create db payload id).2 payload.name x).1 =
        LookupResult.found false msg) := by
  constructor
  · intro db name hwf hok x
    cases hg : getVal db name with
    | none =>
        simp only [filter_clear, hg, OpResult.isOk] at hok
        exact (Bool.false_ne_true hok).elim
    | some c =>
        have hk : 1 ≤ c.filter.k := (hwf.2 (name, c) (getVal_mem db name c hg)).1
        simp only [filter_clear, hg]
        apply lookup_false_of_contains_false _ name x ({ c with filter := c.filter.clear })
        · rw [getVal_updateVal_self, hg]
          rfl
        · exact BloomFilter.contains_clear c.filter x hk
  · intro db payload id hcr x
    by_cases hc : containsKey db payload.name = true
    · simp only [filters_create, hc, if_true, CreateResult.isCreated] at hcr
      exact (Bool.false_ne_true hcr).elim
    · have hfree := getVal_none_of_containsKey_false db payload.name hc
      cases hf : payload.false_positive_rate with
      | some p =>
          have hstate : (filters_create db payload id).2 = db ++ [(payload.name,
              { id := id, name := payload.name,
                filter := BloomFilter.byRate payload.item_count p,
                capacity := payload.item_count,
                creation_mode := CreationMode.FalsePositiveRate p })] := by
            simp [filters_create, hc, hf]
          rw [hstate]
          apply lookup_false_of_contains_false _ payload.name x
            ({ id := id, name := payload.name,
               filter := BloomFilter.byRate payload.item_count p,
               capacity := payload.item_count,
               creation_mode := CreationMode.FalsePositiveRate p })
          · rw [getVal_append_none db _ _ hfree]
            simp [getVal]
          · exact contains_byRate_false _ _ x
      | none =>
          cases hk : payload.hash_count with
          | some kc =>
              have hstate : (filters_create db payload id).2 = db ++ [(payload.name,
                  { id := id, name := payload.name,
                    filter := BloomFilter.byCount payload.item_count kc,
                    capacity := payload.item_count,
                    creation_mode := CreationMode.HashCount kc })] := by
                simp [filters_create, hc, hf, hk]
              rw [hstate]
              apply lookup_false_of_contains_false _ payload.name x
                ({ id := id, name := payload.name,
                   filter := BloomFilter.byCount payload.item_count kc,
                   capacity := payload.item_count,
                   creation_mode := CreationMode.HashCount kc })
              · rw [getVal_append_none db _ _ hfree]
                simp [getVal]
              · exact contains_byCount_false _ _ x
          | none =>
              simp only [filters_create, hc, if_false, hf, hk,
                CreateResult.isCreated] at hcr
              exact (Bool.false_ne_true hcr).elim

/-- A concrete create request in false-positive-rate mode. -/
def ratePay : CreateRequest :=
  { name := "logins", item_count := 2, hash_count := none,
    false_positive_rate := some (1/100) }

/-- Witness for C2: clearing the concrete registry makes the lookup answer
false, and a freshly created rate-mode filter answers false. -/
theorem clear_resets_membership_witness :
    wfDb sampleDb ∧
    (filter_clear sampleDb "acc").1.isOk = true ∧
    (∃ msg, (filter_lookup (filter_clear sampleDb "acc").2 "acc" "user_123").1 =
      LookupResult.found false msg) ∧
    (filters_create [] ratePay "id-9").1.isCreated = true ∧
    (∃ msg, (filter_lookup (filters_create [] ratePay "id-9").2 "logins" "user_123").1 =
      LookupResult.found false msg) :=
  ⟨by decide, by decide,
    clear_resets_membership.1 sampleDb "acc" (by decide) (by decide) "user_123",
    by decide,
    clear_resets_membership.2 [] ratePay "id-9" (by decide) "user_123"⟩

/-! ### Claim C3: name uniqueness and conflict behaviour -/

/-- C3: in every reachable registry state each display name keys at most
one record, and a create for a name already present reports a conflict and
leaves the registry exactly as it was. -/
theorem registry_name_uniqueness (db : Registry) (h : Reachable db) :
    (keys db).Nodup ∧
    ∀ (payload : CreateRequest) (id : String),
      containsKey db payload.name = true →
      (filters_create db payload id).1.isConflict = true ∧
      (filters_create db payload id).2 = db := by
  refine ⟨(wfDb_reachable db h).1, ?_⟩
  intro payload id hc
  constructor
  · simp [filters_create, hc, CreateResult.isConflict]
  · simp [filters_create, hc]

/-- A concrete create request in hash-count mode. -/
def countPay : CreateRequest :=
  { name := "acc", item_count := 1, hash_count := some 1,
    false_positive_rate := none }

/-- Witness for C3: after one create from the empty registry, the keys are
unique and re-creating the same name conflicts without any change. -/
theorem registry_name_uniqueness_witness :
    (keys (stepOp [] (Op.createOp countPay "id-1"))).Nodup ∧
    containsKey (stepOp [] (Op.createOp countPay "id-1")) countPay.name = true ∧
    (filters_create (stepOp [] (Op.createOp countPay "id-1")) countPay "id-2").1.isConflict = true ∧
    (filters_create (stepOp [] (Op.createOp countPay "id-1")) countPay "id-2").2 =
      stepOp [] (Op.createOp countPay "id-1") :=
  ⟨(registry_name_uniqueness _ (Reachable.next [] _ Reachable.init)).1,
   by decide,
   ((registry_name_uniqueness _ (Reachable.next [] _ Reachable.init)).2
     countPay "id-2" (by decide)).1,
   ((registry_name_uniqueness _ (Reachable.next [] _ Reachable.init)).2
     countPay "id-2" (by decide)).2⟩

/-! ### Claims C4, C5, C6, C9: the create handler's parameter handling -/

/-- A concrete create request supplying both sizing fields. -/
def bothPay : CreateRequest :=
  { name := "both", item_count := 1, hash_count := some 2,
    false_positive_rate := some (1/2) }

/-- C9: when both `false_positive_rate` and `hash_count` are supplied and
the name is free, creation succeeds, the filter is built from the rate, the
stored creation mode is `FalsePositiveRate`, and the handler behaves
exactly as if `hash_count` had not been supplied at all. -/
theorem create_both_modes_uses_rate (db : Registry) (payload : CreateRequest)
    (id : String) (p : ℚ) (kc : Nat)
    (hp : payload.false_positive_rate = some p)
    (_hk : payload.hash_count = some kc)
    (hfree : containsKey db payload.name = false) :
    (filters_create db payload id).1 = CreateResult.created
      { id := id, name := payload.name,
        message := "Filter " ++ qc ++ payload.name ++ qc ++ " created" } ∧
    (filters_create db payload id).2 = db ++ [(payload.name,
      { id := id, name := payload.name,
        filter := BloomFilter.byRate payload.item_count p,
        capacity := payload.item_count,
        creation_mode := CreationMode.FalsePositiveRate p })] ∧
    filters_create db payload id =
      filters_create db { payload with hash_count := none } id := by
  have hc : ¬ containsKey db payload.name = true := by simp [hfree]
  refine ⟨?_, ?_, ?_⟩
  · simp [filters_create, hc, hp]
  · simp [filters_create, hc, hp]
  · simp [filters_create, hc, hp]

/-- Witness for C9 at the empty registry. -/
theorem create_both_modes_uses_rate_witness :
    bothPay.false_positive_rate = some (1/2) ∧
    bothPay.hash_count = some 2 ∧
    containsKey [] bothPay.name = false ∧
    ((filters_create [] bothPay "id-4b").1 = CreateResult.created
        { id := "id-4b", name := bothPay.name,
          message := "Filter " ++ qc ++ bothPay.name ++ qc ++ " created" } ∧
      (filters_create [] bothPay "id-4b").2 = [] ++ [(bothPay.name,
        { id := "id-4b", name := bothPay.name,
          filter := BloomFilter.byRate bothPay.item_count (1/2),
          capacity := bothPay.item_count,
          creation_mode := CreationMode.FalsePositiveRate (1/2) })] ∧
      filters_create [] bothPay "id-4b" =
        filters_create [] { bothPay with hash_count := none } "id-4b") :=
  ⟨rfl, rfl, by decide,
    create_both_modes_uses_rate [] bothPay "id-4b" (1/2) 2 rfl rfl (by decide)⟩

/-- Counterexample to C4 as stated: a create request supplying both sizing
fields is not rejected; on the empty registry it is accepted and a record
is created. -/
theorem create_both_modes_not_rejected :
    (filters_create [] bothPay "id-4").1.isCreated = true ∧
    (filters_create [] bothPay "id-4").1.isBadRequest = false ∧
    (filters_create [] bothPay "id-4").2 ≠ [] :=
  ⟨by decide, by decide, by decide⟩

/-- C4 amended: a create request supplying both sizing fields is never
rejected for duplicate parameters; it is processed exactly as if only
`false_positive_rate` had been supplied, the `hash_count` being ignored. -/
theorem create_both_modes_no_rejection (db : Registry) (payload : CreateRequest)
    (id : String) (p : ℚ) (kc : Nat)
    (hp : payload.false_positive_rate = some p)
    (_hk : payload.hash_count = some kc) :
    (filters_create db payload id).1.isBadRequest = false ∧
    filters_create db payload id =
      filters_create db { payload with hash_count := none } id := by
  by_cases hc : containsKey db payload.name = true
  · constructor
    · simp [filters_create, hc, CreateResult.isBadRequest]
    · simp [filters_create, hc]
  · constructor
    · simp [filters_create, hc, hp, CreateResult.isBadRequest]
    · simp [filters_create, hc, hp]

/-- Witness for the amended C4. -/
theorem create_both_modes_no_rejection_witness :
    bothPay.false_positive_rate = some (1/2) ∧
    bothPay.hash_count = some 2 ∧
    ((filters_create sampleDb bothPay "id-4c").1.isBadRequest = false ∧
      filters_create sampleDb bothPay "id-4c" =
        filters_create sampleDb { bothPay with hash_count := none } "id-4c") :=
  ⟨rfl, rfl,
    create_both_modes_no_rejection sampleDb bothPay "id-4c" (1/2) 2 rfl rfl⟩

/-- A concrete create request supplying neither sizing field, with the name
of an already-registered filter. -/
def nonePay : CreateRequest :=
  { name := "acc", item_count := 1, hash_count := none,
    false_positive_rate := none }

/-- Counterexample to C5 as stated: when the requested name is already
registered, a create supplying neither sizing field reports the name
conflict, not the InvalidRequest (bad request) outcome. -/
theorem create_missing_modes_conflict_first :
    (filters_create sampleDb nonePay "id-5").1.isBadRequest = false ∧
    (filters_create sampleDb nonePay "id-5").1.isConflict = true :=
  ⟨by decide, by decide⟩

/-- C5 amended: a create request supplying neither sizing field never
mutates the registry and never returns an identifier; when the name is not
already registered it fails with the InvalidRequest outcome (an existing
name reports the conflict outcome first). -/
theorem create_missing_modes_rejected (db : Registry) (payload : CreateRequest)
    (id : String) (hp : payload.false_positive_rate = none)
    (hk : payload.hash_count = none) :
    (filters_create db payload id).2 = db ∧
    (filters_create db payload id).1.isCreated = false ∧
    (containsKey db payload.name = false →
      (filters_create db payload id).1 =
        CreateResult.badRequest "Must provide either false_positive_rate or hash_count") := by
  by_cases hc : containsKey db payload.name = true
  · refine ⟨?_, ?_, ?_⟩
    · simp [filters_create, hc]
    · simp [filters_create, hc, CreateResult.isCreated]
    · intro hfree
      rw [hfree] at hc
      exact (Bool.false_ne_true hc).elim
  · refine ⟨?_, ?_, ?_⟩
    · simp [filters_create, hc, hp, hk]
    · simp [filters_create, hc, hp, hk, CreateResult.isCreated]
    · intro hfree
      simp [filters_create, hc, hp, hk]

/-- Witness for the amended C5 at the empty registry. -/
theorem create_missing_modes_rejected_witness :
    nonePay.false_positive_rate = none ∧ nonePay.hash_count = none ∧
    containsKey [] nonePay.name = false ∧
    (filters_create [] nonePay "id-5b").2 = [] ∧
    (filters_create [] nonePay "id-5b").1.isCreated = false ∧
    (filters_create [] nonePay "id-5b").1 =
      CreateResult.badRequest "Must provide either false_positive_rate or hash_count" :=
  ⟨rfl, rfl, by decide,
    (create_missing_modes_rejected [] nonePay "id-5b" rfl rfl).1,
    (create_missing_modes_rejected [] nonePay "id-5b" rfl rfl).2.1,
    (create_missing_modes_rejected [] nonePay "id-5b" rfl rfl).2.2 (by decide)⟩

/-- A concrete create request with `item_count = 0`, the spec's
programming-error condition. -/
def zeroPay : CreateRequest :=
  { name := "f0", item_count := 0, hash_count := none,
    false_positive_rate := some (1/2) }

/-- C6: the create handler has no input validation for `item_count = 0`:
on the empty registry the request is accepted and a record with capacity 0
is registered, contrary to the spec's requirement to reject the request at
the registry's input-validation boundary. -/
theorem create_zero_capacity_not_rejected :
    (filters_create [] zeroPay "id-0").1.isCreated = true ∧
    ((getVal (filters_create [] zeroPay "id-0").2 "f0").map
      FilterContainer.capacity) = some 0 :=
  ⟨by decide, by decide⟩

/-! ### Claim C7: delete by name first, then by identifier -/

theorem getVal_removeKey_self : ∀ (db : Registry) (key : String),
    (keys db).Nodup → getVal (removeKey db key) key = none
  | [], _, _ => rfl
  | e :: rest, key, hnodup => by
      have hpair := List.nodup_cons.mp
        (show (e.1 :: keys rest).Nodup from hnodup)
      by_cases hk : e.1 = key
      · simp only [removeKey, if_pos hk]
        apply getVal_eq_none_of_not_mem
        rw [← hk]
        exact hpair.1
      · simp only [removeKey, if_neg hk, getVal]
        exact getVal_removeKey_self rest key hpair.2

theorem mem_removeKey_of_ne : ∀ (db : Registry) (key : String)
    (e : String × FilterContainer), e ∈ db → e.1 ≠ key → e ∈ removeKey db key
  | e0 :: rest, key, e, he, hne => by
      by_cases hk : e0.1 = key
      · simp only [removeKey, if_pos hk]
        rcases List.mem_cons.mp he with rfl | hmem
        · exact absurd hk hne
        · exact hmem
      · simp only [removeKey, if_neg hk]
        rcases List.mem_cons.mp he with rfl | hmem
        · exact List.mem_cons_self _ _
        · exact List.mem_cons_of_mem _ (mem_removeKey_of_ne rest key e hmem hne)

theorem not_mem_removeKey_self : ∀ (db : Registry) (e : String × FilterContainer),
    (keys db).Nodup → e ∈ db → e ∉ removeKey db e.1
  | e0 :: rest, e, hnodup, he => by
      have hpair := List.nodup_cons.mp
        (show (e0.1 :: keys rest).Nodup from hnodup)
      by_cases hk : e0.1 = e.1
      · simp only [removeKey, if_pos hk]
        intro hmem
        apply hpair.1
        rw [hk]
        exact List.mem_map.mpr ⟨e, hmem, rfl⟩
      · simp only [removeKey, if_neg hk]
        intro hmem
        rcases List.mem_cons.mp hmem with rfl | hmem2
        · exact hk rfl
        · rcases List.mem_cons.mp he with rfl | he2
          · exact hk rfl
          · exact not_mem_removeKey_self rest e hpair.2 he2 hmem2

theorem eq_of_mem_keys_nodup : ∀ (db : Registry),
    (keys db).Nodup → ∀ (e e' : String × FilterContainer),
    e ∈ db → e' ∈ db → e.1 = e'.1 → e = e'
  | [], _, e, _, he, _, _ => absurd he (List.not_mem_nil e)
  | e0 :: rest, hnodup, e, e', he, he', hkey => by
      have hpair := List.nodup_cons.mp
        (show (e0.1 :: keys rest).Nodup from hnodup)
      rcases List.mem_cons.mp he with rfl | hmem
      · rcases List.mem_cons.mp he' with rfl | hmem'
        · rfl
        · exfalso
          apply hpair.1
          rw [hkey]
          exact List.mem_map.mpr ⟨e', hmem', rfl⟩
      · rcases List.mem_cons.mp he' with rfl | hmem'
        · exfalso
          apply hpair.1
          rw [← hkey]
          exact List.mem_map.mpr ⟨e, hmem, rfl⟩
        · exact eq_of_mem_keys_nodup rest hpair.2 e e' hmem hmem' hkey

theorem findKeyById_eq : ∀ (db : Registry) (tok : String)
    (e0 : String × FilterContainer), e0 ∈ db → e0.2.id = tok →
    db.countP (fun e => e.2.id == tok) ≤ 1 →
    findKeyById db tok = some e0.1
  | e1 :: rest, tok, e0, he, hid, hcount => by
      by_cases h1 : e1.2.id = tok
      · simp only [findKeyById, if_pos h1]
        rcases List.mem_cons.mp he with rfl | hmem
        · rfl
        · exfalso
          rw [List.countP_cons_of_pos _ _ (by simpa using h1)] at hcount
          have hpos : 0 < rest.countP (fun e => e.2.id == tok) :=
            List.countP_pos_iff.mpr ⟨e0, hmem, by simpa using hid⟩
          omega
      · simp only [findKeyById, if_neg h1]
        rcases List.mem_cons.mp he with rfl | hmem
        · exact absurd hid h1
        · rw [List.countP_cons_of_neg _ _ (by simpa using h1)] at hcount
          exact findKeyById_eq rest tok e0 hmem hid hcount

theorem findKeyById_none : ∀ (db : Registry) (tok : String),
    (∀ e ∈ db, e.2.id ≠ tok) → findKeyById db tok = none
  | [], _, _ => rfl
  | e :: rest, tok, h => by
      simp only [findKeyById, if_neg (h e (List.mem_cons_self _ _))]
      exact findKeyById_none rest tok (fun e' he' => h e' (List.mem_cons_of_mem _ he'))

/-- C7: `delete(name_or_id)` resolves the token first as a display name
(so a name match wins even when the token also equals some record's
identifier), otherwise scans for a record with that identifier; in either
case it removes exactly the matched record and succeeds, and when nothing
matches it fails with NotFound and removes nothing. -/
theorem filters_delete_spec (db : Registry) (tok : String)
    (hnodup : (keys db).Nodup)
    (hid : db.countP (fun e => e.2.id == tok) ≤ 1) :
    (containsKey db tok = true →
      (filters_delete db tok).1.isOk = true ∧
      (filters_delete db tok).2 = removeKey db tok ∧
      getVal (filters_delete db tok).2 tok = none ∧
      ∀ e ∈ db, e.1 ≠ tok → e ∈ (filters_delete db tok).2) ∧
    (containsKey db tok = false →
      ∀ e0 ∈ db, e0.2.id = tok →
        (filters_delete db tok).1.isOk = true ∧
        (filters_delete db tok).2 = removeKey db e0.1 ∧
        e0 ∉ (filters_delete db tok).2 ∧
        ∀ e ∈ db, e ≠ e0 → e ∈ (filters_delete db tok).2) ∧
    (containsKey db tok = false → (∀ e ∈ db, e.2.id ≠ tok) →
      (filters_delete db tok).1.isOk = false ∧
      (filters_delete db tok).2 = db) := by
  refine ⟨?_, ?_, ?_⟩
  · intro hc
    simp only [filters_delete, hc, if_true]
    refine ⟨by trivial, by trivial, getVal_removeKey_self db tok hnodup, ?_⟩
    intro e he hne
    exact mem_removeKey_of_ne db tok e he hne
  · intro hc e0 he0 hid0
    have hfind := findKeyById_eq db tok e0 he0 hid0 hid
    simp only [filters_delete, hc, Bool.false_eq_true, if_false, hfind]
    refine ⟨by trivial, by trivial, not_mem_removeKey_self db e0 hnodup he0, ?_⟩
    intro e he hne
    apply mem_removeKey_of_ne db e0.1 e he
    intro hkey
    exact hne (eq_of_mem_keys_nodup db hnodup e e0 he he0 hkey)
  · intro hc hnone
    have hfind := findKeyById_none db tok hnone
    simp only [filters_delete, hc, Bool.false_eq_true, if_false, hfind]
    exact ⟨by trivial, by trivial⟩

/-- Witness for C7: deleting by identifier from the concrete one-filter
registry succeeds and removes that record. -/
theorem filters_delete_spec_witness :
    (keys sampleDb).Nodup ∧
    sampleDb.countP (fun e => e.2.id == "id-1") ≤ 1 ∧
    containsKey sampleDb "id-1" = false ∧
    ("acc", sampleCont) ∈ sampleDb ∧
    ("acc", sampleCont).2.id = "id-1" ∧
    (filters_delete sampleDb "id-1").1.isOk = true ∧
    (filters_delete sampleDb "id-1").2 = removeKey sampleDb "acc" ∧
    ("acc", sampleCont) ∉ (filters_delete sampleDb "id-1").2 :=
  ⟨by decide, by decide, by decide, by decide, by decide,
    ((filters_delete_spec sampleDb "id-1" (by decide) (by decide)).2.1
      (by decide) ("acc", sampleCont) (by decide) (by decide)).1,
    ((filters_delete_spec sampleDb "id-1" (by decide) (by decide)).2.1
      (by decide) ("acc", sampleCont) (by decide) (by decide)).2.1,
    ((filters_delete_spec sampleDb "id-1" (by decide) (by decide)).2.1
      (by decide) ("acc", sampleCont) (by decide) (by decide)).2.2.1⟩

/-! ### Claim C8: list is a faithful, non-mutating snapshot -/

/-- Fallback value for positional indexing into the list response. -/
def dummyItem : ListItem :=
  { id := "", name := "", item_count := 0, config := "" }

/-- Fallback value for positional indexing into the registry. -/
def dummyEntry : String × FilterContainer :=
  ("", { id := "", name := "", filter := { bits := [], k := 0 },
         capacity := 0, creation_mode := CreationMode.HashCount 0 })

/-- C8: `filters_list` returns exactly one tuple per registered record, no
more and no fewer, the tuple at each position carrying that record's
identifier, name, configured capacity and creation-mode description, and
the registry state is returned untouched. -/
theorem filters_list_spec (db : Registry) :
    (filters_list db).2 = db ∧
    (filters_list db).1.length = db.length ∧
    ∀ i, i < db.length →
      (filters_list db).1.getD i dummyItem =
        { id := (db.getD i dummyEntry).2.id,
          name := (db.getD i dummyEntry).2.name,
          item_count := (db.getD i dummyEntry).2.capacity,
          config := configDescription (db.getD i dummyEntry).2.creation_mode } := by
  refine ⟨rfl, by simp [filters_list], ?_⟩
  intro i hi
  simp only [filters_list]
  rw [List.getD_eq_getElem?_getD, List.getElem?_map, List.getD_eq_getElem?_getD,
    List.getElem?_eq_getElem hi]
  simp

/-- Witness for C8 at the concrete one-filter registry. -/
theorem filters_list_spec_witness :
    (filters_list sampleDb).2 = sampleDb ∧
    (filters_list sampleDb).1.length = sampleDb.length ∧
    0 < sampleDb.length ∧
    (filters_list sampleDb).1.getD 0 dummyItem =
      { id := (sampleDb.getD 0 dummyEntry).2.id,
        name := (sampleDb.getD 0 dummyEntry).2.name,
        item_count := (sampleDb.getD 0 dummyEntry).2.capacity,
        config := configDescription (sampleDb.getD 0 dummyEntry).2.creation_mode } :=
  ⟨(filters_list_spec sampleDb).1, (filters_list_spec sampleDb).2.1,
    by decide, (filters_list_spec sampleDb).2.2 0 (by decide)⟩

/-! ### Claim C10: insert and clear touch only the named record's bits -/

/-- C10: a succeeding `insert_item` or `clear_filter` changes only the
named record's inner filter: the set of registered names is unchanged,
every other record is untouched, and the named record keeps its
identifier, display name, capacity and creation mode. -/
theorem mutation_frame (db : Registry) (name item : String) :
    ((filter_insert db name item).1.isOk = true →
      keys (filter_insert db name item).2 = keys db ∧
      (∀ other, other ≠ name →
        getVal (filter_insert db name item).2 other = getVal db other) ∧
      getVal (filter_insert db name item).2 name =
        (getVal db name).map (fun c => { c with filter := c.filter.insert item }) ∧
      (getVal (filter_insert db name item).2 name).map FilterContainer.id =
        (getVal db name).map FilterContainer.id ∧
      (getVal (filter_insert db name item).2 name).map FilterContainer.name =
        (getVal db name).map FilterContainer.name ∧
      (getVal (filter_insert db name item).2 name).map FilterContainer.capacity =
        (getVal db name).map FilterContainer.capacity ∧
      (getVal (filter_insert db name item).2 name).map FilterContainer.creation_mode =
        (getVal db name).map FilterContainer.creation_mode) ∧
    ((filter_clear db name).1.isOk = true →
      keys (filter_clear db name).2 = keys db ∧
      (∀ other, other ≠ name →
        getVal (filter_clear db name).2 other = getVal db other) ∧
      getVal (filter_clear db name).2 name =
        (getVal db name).map (fun c => { c with filter := c.filter.clear }) ∧
      (getVal (filter_clear db name).2 name).map FilterContainer.id =
        (getVal db name).map FilterContainer.id ∧
      (getVal (filter_clear db name).2 name).map FilterContainer.name =
        (getVal db name).map FilterContainer.name ∧
      (getVal (filter_clear db name).2 name).map FilterContainer.capacity =
        (getVal db name).map FilterContainer.capacity ∧
      (getVal (filter_clear db name).2 name).map FilterContainer.creation_mode =
        (getVal db name).map FilterContainer.creation_mode) := by
  constructor
  · intro hok
    cases hg : getVal db name with
    | none =>
        simp only [filter_insert, hg, OpResult.isOk] at hok
        exact (Bool.false_ne_true hok).elim
    | some c =>
        simp only [filter_insert, hg]
        refine ⟨keys_updateVal db name _, ?_, ?_, ?_, ?_, ?_, ?_⟩
        · intro other hne
          exact getVal_updateVal_ne db name other _ hne
        · rw [getVal_updateVal_self, hg]
        · rw [getVal_updateVal_self, hg]
          rfl
        · rw [getVal_updateVal_self, hg]
          rfl
        · rw [getVal_updateVal_self, hg]
          rfl
        · rw [getVal_updateVal_self, hg]
          rfl
  · intro hok
    cases hg : getVal db name with
    | none =>
        simp only [filter_clear, hg, OpResult.isOk] at hok
        exact (Bool.false_ne_true hok).elim
    | some c =>
        simp only [filter_clear, hg]
        refine ⟨keys_updateVal db name _, ?_, ?_, ?_, ?_, ?_, ?_⟩
        · intro other hne
          exact getVal_updateVal_ne db name other _ hne
        · rw [getVal_updateVal_self, hg]
        · rw [getVal_updateVal_self, hg]
          rfl
        · rw [getVal_updateVal_self, hg]
          rfl
        · rw [getVal_updateVal_self, hg]
          rfl
        · rw [getVal_updateVal_self, hg]
          rfl

/-- Witness for C10 at the concrete one-filter registry. -/
theorem mutation_frame_witness :
    (filter_insert sampleDb "acc" "user_123").1.isOk = true ∧
    (filter_clear sampleDb "acc").1.isOk = true ∧
    keys (filter_insert sampleDb "acc" "user_123").2 = keys sampleDb ∧
    getVal (filter_insert sampleDb "acc" "user_123").2 "acc" =
      (getVal sampleDb "acc").map
        (fun c => { c with filter := c.filter.insert "user_123" }) ∧
    keys (filter_clear sampleDb "acc").2 = keys sampleDb ∧
    getVal (filter_clear sampleDb "acc").2 "acc" =
      (getVal sampleDb "acc").map (fun c => { c with filter := c.filter.clear }) ∧
    (getVal (filter_insert sampleDb "acc" "user_123").2 "acc").map
      FilterContainer.capacity =
      (getVal sampleDb "acc").map FilterContainer.capacity :=
  ⟨by decide, by decide,
    ((mutation_frame sampleDb "acc" "user_123").1 (by decide)).1,
    ((mutation_frame sampleDb "acc" "user_123").1 (by decide)).2.2.1,
    ((mutation_frame sampleDb "acc" "user_123").2 (by decide)).1,
    ((mutation_frame sampleDb "acc" "user_123").2 (by decide)).2.2.1,
    ((mutation_frame sampleDb "acc" "user_123").1 (by decide)).2.2.2.2.2.1⟩
